import Mathlib

/-!
# Verification of the bosty-radio core

A shallow embedding, in Lean 4, of the position-arbitration and
output-coordination core of the bosty-radio daemon:

* `bosty_radio/morse_led.py` — the Signal Encoder (`_text_to_morse`),
  the Blink Scheduler timing (`_blink_pattern`, `_blink_loop`) and the
  scheduler state operations (`start_message`, `stop`, `set_state`);
* `bosty_radio/gpio_controller.py` — the Position Sampler
  (`read_position`);
* `bosty_radio/radio_controller.py` — the Transition Coordinator
  (`_switch_to_position`, `_switch_to_station`, `_switch_to_bluetooth`,
  `shutdown`).

Python strings are modelled as `List Char`.  All durations are modelled
in integer milliseconds (the Python source converts `dot_duration_ms` to
float seconds by dividing by 1000; every duration the program uses is an
integer multiple of the dot duration, and the claims under study concern
only those exact ratios, which the millisecond model preserves exactly).
The external collaborators (MPD audio, bluetoothctl pairing) are modelled
through their call interfaces: calls become elements of an explicit
action trace, and their success or failure is an explicit boolean input.
-/

namespace BostyRadio

/-- The `MORSE_CODE` dictionary of `morse_led.py`, as an association
list.  Note the entry for the space character, which maps to a
single-space "code". -/
def MORSE_CODE : List (Char × List Char) :=
  [ ('A', ".-".toList), ('B', "-...".toList), ('C', "-.-.".toList),
    ('D', "-..".toList), ('E', ".".toList), ('F', "..-.".toList),
    ('G', "--.".toList), ('H', "....".toList), ('I', "..".toList),
    ('J', ".---".toList), ('K', "-.-".toList), ('L', ".-..".toList),
    ('M', "--".toList), ('N', "-.".toList), ('O', "---".toList),
    ('P', ".--.".toList), ('Q', "--.-".toList), ('R', ".-.".toList),
    ('S', "...".toList), ('T', "-".toList), ('U', "..-".toList),
    ('V', "...-".toList), ('W', ".--".toList), ('X', "-..-".toList),
    ('Y', "-.--".toList), ('Z', "--..".toList),
    ('0', "-----".toList), ('1', ".----".toList), ('2', "..---".toList),
    ('3', "...--".toList), ('4', "....-".toList), ('5', ".....".toList),
    ('6', "-....".toList), ('7', "--...".toList), ('8', "---..".toList),
    ('9', "----.".toList),
    ('.', ".-.-.-".toList), (',', "--..--".toList), ('?', "..--..".toList),
    (' ', " ".toList) ]

/-- The list `morse` built by `_text_to_morse`: each character of the
upper-cased text that is a key of `MORSE_CODE` contributes its code.
(The `elif char == " "` branch of the source is unreachable because the
space is itself a key of the dictionary.) -/
def morseItems (text : List Char) : List (List Char) :=
  (text.map Char.toUpper).filterMap (fun c => MORSE_CODE.lookup c)

/-- Python's `" ".join`: concatenate the items with a single space
between consecutive items. -/
def joinSp : List (List Char) → List Char
  | [] => []
  | [x] => x
  | x :: y :: t => x ++ ' ' :: joinSp (y :: t)

/-- `MorseLED._text_to_morse`: map each character to its code and join
the codes with single spaces. -/
def text_to_morse (text : List Char) : List Char :=
  joinSp (morseItems text)

/-! ## Timing (from `MorseLED.__init__`), in integer milliseconds -/

/-- `self.dot_duration` (one dot), in ms. -/
def dot_duration (D : ℕ) : ℕ := D

/-- `self.dash_duration = self.dot_duration * 3`. -/
def dash_duration (D : ℕ) : ℕ := dot_duration D * 3

/-- `self.element_gap = self.dot_duration`. -/
def element_gap (D : ℕ) : ℕ := dot_duration D

/-- `self.letter_gap = self.dot_duration * 3`. -/
def letter_gap (D : ℕ) : ℕ := dot_duration D * 3

/-- `self.word_gap = self.dot_duration * 7`. -/
def word_gap (D : ℕ) : ℕ := dot_duration D * 7

/-- One observable action of the blink machinery: a consultation of the
cancellation flag (`self._stop_event.is_set()`), a lamp-on interval of a
given duration, or a lamp-off interval of a given duration (the LED is
driven LOW before every `time.sleep` of the source, so every sleep is an
off interval). -/
inductive Act where
  | check : Act
  | on (d : ℕ) : Act
  | off (d : ℕ) : Act
deriving DecidableEq

/-- The actions emitted by one iteration of the `for element in pattern`
loop of `MorseLED._blink_pattern` for a single pattern character. -/
def actsOfChar (D : ℕ) (c : Char) : List Act :=
  if c = '.' then
    [Act.on (dot_duration D), Act.off (element_gap D)]
  else if c = '-' then
    [Act.on (dash_duration D), Act.off (element_gap D)]
  else if c = ' ' then
    [Act.off (letter_gap D - element_gap D)]
  else
    [Act.off (word_gap D - letter_gap D)]

/-- `MorseLED._blink_pattern`: the full action sequence for a pattern.
It contains no `Act.check`: the cancellation flag is never consulted
inside a pattern emission. -/
def blink_pattern (D : ℕ) : List Char → List Act
  | [] => []
  | c :: rest => actsOfChar D c ++ blink_pattern D rest

/-- The body of one iteration of `MorseLED._blink_loop` after the
`while not self._stop_event.is_set()` test: if a message is present,
emit its whole pattern and then sleep a word gap; otherwise sleep 0.1 s
(100 ms). -/
def blink_loop_body (D : ℕ) (msg : List Char) : List Act :=
  if msg = [] then [Act.off 100]
  else blink_pattern D (text_to_morse msg) ++ [Act.off (word_gap D)]

/-- One full iteration of `MorseLED._blink_loop`: the single flag check
of the `while` condition, followed by the iteration body. -/
def blink_loop_iter (D : ℕ) (msg : List Char) : List Act :=
  Act.check :: blink_loop_body D msg

/-! ## Observation functions on action traces -/

/-- The lamp-on durations of a trace, in order. -/
def onDurations (l : List Act) : List ℕ :=
  l.filterMap (fun a => match a with | Act.on d => some d | _ => none)

/-- Drop everything up to and including the first lamp-on action. -/
def afterFirstOn : List Act → List Act
  | [] => []
  | Act.on _ :: t => t
  | Act.check :: t => afterFirstOn t
  | Act.off _ :: t => afterFirstOn t

/-- Accumulator pass: walking a trace, sum the off durations seen since
the last lamp-on action; at each lamp-on action emit the accumulated
off time.  Returns the emitted list and the final accumulator. -/
def gapsAcc : ℕ → List Act → List ℕ × ℕ
  | acc, [] => ([], acc)
  | acc, Act.off d :: t => gapsAcc (acc + d) t
  | acc, Act.check :: t => gapsAcc acc t
  | acc, Act.on _ :: t =>
      let r := gapsAcc 0 t
      (acc :: r.1, r.2)

/-- For each pair of consecutive lamp-on actions of a trace, the total
lamp-off time strictly between them. -/
def gapsBetweenOns (l : List Act) : List ℕ :=
  (gapsAcc 0 (afterFirstOn l)).1

/-- Accumulator pass counting flag checks instead of off time. -/
def checksAcc : ℕ → List Act → List ℕ × ℕ
  | acc, [] => ([], acc)
  | acc, Act.off _ :: t => checksAcc acc t
  | acc, Act.check :: t => checksAcc (acc + 1) t
  | acc, Act.on _ :: t =>
      let r := checksAcc 0 t
      (acc :: r.1, r.2)

/-- For each pair of consecutive lamp-on actions of a trace, the number
of cancellation-flag checks strictly between them. -/
def checksBetweenOns (l : List Act) : List ℕ :=
  (checksAcc 0 (afterFirstOn l)).1

/-! ## Blink Scheduler state (`MorseLED`)

The mutable state of a `MorseLED` object.  The background thread is
modelled by `runAlive` (a live background run exists); the sequential
effect of `stop()`'s `join` is that after `stop` returns no run is
alive.  `ledOn` is the level last written to the lamp pin. -/

structure LedState where
  currentMessage : List Char
  stopEventSet : Bool
  runAlive : Bool
  ledOn : Bool
  setupComplete : Bool
deriving DecidableEq

/-- The state of a freshly constructed `MorseLED` (`__init__`): no
message, stop event clear, no thread, setup not done. -/
def ledInit : LedState :=
  { currentMessage := [], stopEventSet := false, runAlive := false,
    ledOn := false, setupComplete := false }

/-- `MorseLED.setup`: if not yet set up, configure the pin as output and
drive it LOW. -/
def ledSetup (s : LedState) : LedState :=
  if s.setupComplete then s
  else { s with setupComplete := true, ledOn := false }

/-- `MorseLED.stop`: set the stop event, join the background thread,
drive the lamp LOW (when set up), and clear `_current_message`. -/
def ledStop (s : LedState) : LedState :=
  let s1 := { s with stopEventSet := true, runAlive := false }
  let s2 := if s1.setupComplete then { s1 with ledOn := false } else s1
  { s2 with currentMessage := [] }

/-- `MorseLED.start_message`: ensure setup, assign `_current_message`,
then call `stop()` (which clears `_current_message` again), then clear
the stop event and start a new background thread. -/
def start_message (msg : List Char) (s : LedState) : LedState :=
  let s0 := ledSetup s
  let s1 := { s0 with currentMessage := msg }
  let s2 := ledStop s1
  { s2 with stopEventSet := false, runAlive := true }

/-- `MorseLED.set_state`: ensure setup, then write the requested level
to the lamp pin.  (No other field of the object is touched.) -/
def set_state (b : Bool) (s : LedState) : LedState :=
  let s0 := ledSetup s
  { s0 with ledOn := b }

/-! ## Position Sampler (`GPIOController.read_position`)

The six digital inputs are a `List Bool` (index order 0..5, `true` =
electrically HIGH).  `read_position` returns the reported position, the
new `current_position` field, and the list of synchronous callback
invocations (each element one call, with its argument) made before the
return. -/

/-- The `for index, pin in enumerate(self.pins)` scan of
`read_position`, started at index `i`: on the first HIGH input, update
`current_position` and fire the callback if the position changed, then
return; if no input is HIGH, set `current_position = None` and return
`none` with no callback. -/
def readScan (cur : Option ℕ) : ℕ → List Bool → Option ℕ × Option ℕ × List ℕ
  | _, [] => (none, none, [])
  | i, b :: rest =>
      if b then
        if cur ≠ some i then (some i, some i, [i])
        else (some i, cur, [])
      else readScan cur (i + 1) rest

/-- `GPIOController.read_position`, given the current inputs and the
stored `current_position`. -/
def read_position (inputs : List Bool) (cur : Option ℕ) :
    Option ℕ × Option ℕ × List ℕ :=
  readScan cur 0 inputs

/-- Lowest HIGH index of an input vector (specification-side helper for
stating the "first input observed active" property). -/
def lowestActive : List Bool → Option ℕ
  | [] => none
  | true :: _ => some 0
  | false :: t => (lowestActive t).map (· + 1)

/-! ## Transition Coordinator (`RadioController`)

Collaborators are modelled at their call interfaces (spec §6): each call
the coordinator makes becomes an element of an action trace, and the
resulting output configuration is tracked in `CoordState`.  After
`RadioController.setup` all component references are non-`None`, so the
`if self.morse_led:`-style guards are taken. -/

/-- A station binding from the configuration (`station.url`,
`station.morse_message`). -/
structure Station where
  url : List Char
  morseMessage : List Char
deriving DecidableEq

/-- The parts of `RadioConfig` the switching logic reads. -/
structure Config where
  stations : List Station
  bluetoothMorse : List Char
deriving DecidableEq

/-- The coordinator-visible output configuration plus
`current_position`:
* `morse` — the message of the last `morse_led.start_message` call
  (`none` after a `stop`): the Blink Scheduler's active message per its
  interface contract;
* `audioUrl` — the URL playing on the audio output (`none` when
  stopped; `play_stream` first stops and clears any current playback,
  so a failed `play_stream` leaves nothing playing);
* `pairingOn` — whether Bluetooth pairing/discoverable mode is on. -/
structure CoordState where
  currentPosition : Option ℕ
  morse : Option (List Char)
  audioUrl : Option (List Char)
  pairingOn : Bool
deriving DecidableEq

/-- A call the coordinator makes on a collaborator. -/
inductive CAct where
  | disablePairing : CAct
  | startMorse (msg : List Char) : CAct
  | stopMorse : CAct
  | playStream (url : List Char) : CAct
  | stopAudio : CAct
  | switchSink : CAct
deriving DecidableEq

/-- `RadioController._switch_to_station` (positions 0..4).  `playOk` is
the boolean result of `audio.play_stream` (which itself catches every
exception internally and reports failure only by returning `False`);
on failure the coordinator only logs — it does not stop the Morse
message, does not retry, and raises nothing. -/
def switch_to_station (cfg : Config) (playOk : Bool) (i : ℕ)
    (s : CoordState) : CoordState × List CAct :=
  if cfg.stations.length ≤ i then (s, [])
  else
    let st := cfg.stations.getD i ⟨[], []⟩
    ({ s with pairingOn := false,
              morse := some st.morseMessage,
              audioUrl := if playOk then some st.url else none },
     [CAct.disablePairing, CAct.startMorse st.morseMessage,
      CAct.playStream st.url])

/-- `RadioController._switch_to_bluetooth` (position 5): stop audio,
start the Bluetooth Morse message, switch to the Bluetooth sink (which
enables pairing mode). -/
def switch_to_bluetooth (cfg : Config) (s : CoordState) :
    CoordState × List CAct :=
  ({ s with audioUrl := none,
            morse := some cfg.bluetoothMorse,
            pairingOn := true },
   [CAct.stopAudio, CAct.startMorse cfg.bluetoothMorse, CAct.switchSink])

/-- `RadioController._switch_to_position`: no-op when the position is
unchanged; otherwise record the new position and dispatch on it. -/
def switch_to_position (cfg : Config) (playOk : Bool) (p : ℕ)
    (s : CoordState) : CoordState × List CAct :=
  if s.currentPosition = some p then (s, [])
  else
    let s0 := { s with currentPosition := some p }
    if p < 5 then switch_to_station cfg playOk p s0
    else if p = 5 then switch_to_bluetooth cfg s0
    else (s0, [])

/-- The output configuration `_switch_to_position` establishes for a
position (with all external calls succeeding), stated from the source:
station slots play their stream with pairing off; position 5 stops
audio and turns pairing on. -/
def configFor (cfg : Config) (p : ℕ) : CoordState :=
  if p < 5 then
    { currentPosition := some p,
      morse := some (cfg.stations.getD p ⟨[], []⟩).morseMessage,
      audioUrl := some (cfg.stations.getD p ⟨[], []⟩).url,
      pairingOn := false }
  else
    { currentPosition := some p,
      morse := some cfg.bluetoothMorse,
      audioUrl := none,
      pairingOn := true }

/-! ## Shutdown (`RadioController.shutdown`)

`audio.stop` and `bluetooth.disable_pairing_mode` each wrap their
external command in `try/except Exception`, logging and swallowing any
failure, so a failing command never propagates to `shutdown`.  The
booleans say whether the respective external command fails. -/

/-- One step of the shutdown sequence, as recorded in the trace. -/
inductive SAct where
  | audioStop : SAct
  | disablePairing : SAct
  | morseStop : SAct
  | morseCleanup : SAct
  | gpioCleanup : SAct
deriving DecidableEq

/-- `AudioController.stop`: run `mpc stop`; `except Exception` logs and
returns normally whether or not the command failed. -/
def audio_stop (mpcFails : Bool) : Except (List Char) Unit :=
  match (if mpcFails then Except.error "mpc".toList else Except.ok ()) with
  | Except.error _ => Except.ok ()
  | Except.ok _ => Except.ok ()

/-- `BluetoothController.disable_pairing_mode`: run two `bluetoothctl`
commands; `except Exception` logs and returns normally. -/
def bt_disable_pairing (btFails : Bool) : Except (List Char) Unit :=
  match (if btFails then Except.error "bluetoothctl".toList else Except.ok ()) with
  | Except.error _ => Except.ok ()
  | Except.ok _ => Except.ok ()

/-- `RadioController.shutdown` with all components initialized: the
sequence of component calls it performs, in source order, threaded
through `Except` so that a step that raised would abort the steps after
it. -/
def shutdownRun (mpcFails btFails : Bool) : Except (List Char) (List SAct) := do
  let _ ← audio_stop mpcFails                   -- self.audio.stop()
  let t1 := [SAct.audioStop]
  let _ ← bt_disable_pairing btFails            -- self.bluetooth.disable_pairing_mode()
  let t2 := t1 ++ [SAct.disablePairing]
  let t3 := t2 ++ [SAct.morseStop]              -- self.morse_led.stop()
  let t4 := t3 ++ [SAct.morseCleanup]           -- self.morse_led.cleanup()
  let t5 := t4 ++ [SAct.gpioCleanup]            -- self.gpio.cleanup()
  Except.ok t5

/-! ## Helper lemmas -/

/-- `_blink_pattern` never consults the cancellation flag: its action
trace contains no `Act.check`. -/
lemma check_not_mem_actsOfChar (D : ℕ) (c : Char) :
    Act.check ∉ actsOfChar D c := by
  unfold actsOfChar
  split
  · simp
  · split
    · simp
    · split <;> simp

lemma check_not_mem_blink_pattern (D : ℕ) (pat : List Char) :
    Act.check ∉ blink_pattern D pat := by
  induction pat with
  | nil => simp [blink_pattern]
  | cons c rest ih =>
      simp only [blink_pattern, List.mem_append]
      rintro (h | h)
      · exact check_not_mem_actsOfChar D c h
      · exact ih h

/-! ## Claims -/

/-- C1: for every text, after `start_message(text)` returns, exactly one
background run is alive and it repeatedly blinks the pattern encoded
from the text.  The code violates the second half: `start_message`
assigns `self._current_message = message` and only then calls
`self.stop()`, whose last action is `self._current_message = ""`, so the
fresh background run observes an empty message and, by the
`if self._current_message` branch of `_blink_loop`, never blinks — in
contradiction with `start_message`'s own docstring ("Start blinking a
Morse code message (repeats continuously)").  This theorem evaluates the
code at the failing input `start_message("SOS")` on a fresh controller:
the run is alive but the stored message is empty, and each loop
iteration of that run is a bare 100 ms sleep with no lamp emission. -/
theorem C1_start_message_wipes_message :
    (start_message "SOS".toList ledInit).runAlive = true ∧
    (start_message "SOS".toList ledInit).currentMessage = [] ∧
    blink_loop_body 100 (start_message "SOS".toList ledInit).currentMessage
      = [Act.off 100] := by
  decide

/-- C4 counterexample: the claim says `set_state` stops any active
background run, leaving no run alive.  On the code, `set_state` only
writes the pin: starting a message (run alive) and then calling
`set_state(True)` leaves the run alive. -/
theorem C4_counterexample :
    (set_state true (start_message "SOS".toList ledInit)).runAlive = true := by
  decide

/-- C4 (amended): `set_state(state)` ensures GPIO setup and writes the
requested level to the lamp pin; it does not stop (or otherwise touch)
any active background run — the run-alive flag, the stop event and the
stored message are all unchanged.  (Callers such as
`_update_bluetooth_led` call `stop()` themselves before `set_state`.) -/
theorem C4_set_state_only_writes_lamp (b : Bool) (s : LedState) :
    (set_state b s).ledOn = b ∧
    (set_state b s).runAlive = s.runAlive ∧
    (set_state b s).stopEventSet = s.stopEventSet ∧
    (set_state b s).currentMessage = s.currentMessage ∧
    (set_state b s).setupComplete = true := by
  cases s with
  | mk cm se ra lo sc =>
      cases sc <;> simp [set_state, ledSetup]

/-- C5 counterexample: the claim says the background run checks the
cancellation flag between consecutive symbol emissions.  On the code,
`_blink_loop` tests `self._stop_event.is_set()` once per `while`
iteration and `_blink_pattern` never tests it, so for the message "SOS"
(9 emissions per iteration) the number of flag checks between each pair
of consecutive emissions is 0, and in particular some pair of
consecutive emissions has no check between them. -/
theorem C5_counterexample :
    checksBetweenOns (blink_loop_iter 1 "SOS".toList)
      = [0, 0, 0, 0, 0, 0, 0, 0] ∧
    (0 : ℕ) ∈ checksBetweenOns (blink_loop_iter 1 "SOS".toList) := by
  decide

/-- C5 (amended): cancellation is cooperative, but the flag is checked
exactly once per loop iteration — before the whole pattern emission —
and never during the pattern: one iteration is the single `while`-test
check followed by a check-free body (full pattern plus the inter-repeat
word gap, or a 100 ms sleep when no message is set).  The worst-case
stop latency is therefore a full pattern emission plus the word gap,
not one symbol duration plus one gap. -/
theorem C5_check_once_per_iteration (D : ℕ) (msg : List Char) :
    blink_loop_iter D msg = Act.check :: blink_loop_body D msg ∧
    Act.check ∉ blink_loop_body D msg := by
  refine ⟨rfl, ?_⟩
  unfold blink_loop_body
  split
  · simp
  · simp only [List.mem_append]
    rintro (h | h)
    · exact check_not_mem_blink_pattern D _ h
    · simp_all

/-- C10 counterexample: the claim says the shutdown sequence begins by
stopping the Blink Scheduler, then disables pairing, then stops the
Audio Output.  On the code, `shutdown` stops the Audio Output first and
stops the Morse LED only third: in the emitted call sequence
`audioStop` precedes `morseStop`. -/
theorem C10_counterexample :
    shutdownRun false false =
      Except.ok (SAct.audioStop ::
        [SAct.disablePairing, SAct.morseStop, SAct.morseCleanup,
         SAct.gpioCleanup]) ∧
    SAct.audioStop ≠ SAct.morseStop :=
  ⟨rfl, by decide⟩

/-- C10 (amended): the shutdown sequence performs, in order: stop the
Audio Output, disable pairing discoverability, stop the Blink Scheduler,
release the Scheduler's lamp resources, release sampler resources.  The
two steps that drive external commands (`audio.stop`,
`bluetooth.disable_pairing_mode`) each catch and log their own failures
internally, so whether or not those commands fail, every step of the
sequence still executes. -/
theorem C10_shutdown_order_best_effort (mpcFails btFails : Bool) :
    shutdownRun mpcFails btFails =
      Except.ok [SAct.audioStop, SAct.disablePairing, SAct.morseStop,
                 SAct.morseCleanup, SAct.gpioCleanup] := by
  cases mpcFails <;> cases btFails <;> rfl

/-! Per-character unfoldings of `_blink_pattern`'s loop body. -/

lemma actsOfChar_dot (D : ℕ) :
    actsOfChar D '.' = [Act.on (dot_duration D), Act.off (element_gap D)] :=
  rfl

lemma actsOfChar_dash (D : ℕ) :
    actsOfChar D '-' = [Act.on (dash_duration D), Act.off (element_gap D)] :=
  rfl

lemma actsOfChar_space (D : ℕ) :
    actsOfChar D ' ' = [Act.off (letter_gap D - element_gap D)] :=
  rfl

/-- The encoder output for "SOS" (checked by evaluation). -/
lemma text_to_morse_sos :
    text_to_morse "SOS".toList = "... --- ...".toList := by
  decide

/-- C6: for every dot duration `D`, the pattern emitted for "SOS" is
dot, dash and gap intervals in the exact source ratios: on-durations
1D,1D,1D (S), 3D,3D,3D (O), 1D,1D,1D (S); every element is immediately
followed by a 1D off interval; and the total lamp-off time between
consecutive elements is 1D inside a letter and 3D across each of the two
letter boundaries (the trailing 1D element gap plus the additional
`letter_gap - element_gap = 2D` of the space symbol). -/
theorem C6_sos_timing (D : ℕ) :
    blink_pattern D (text_to_morse "SOS".toList) =
      [Act.on D, Act.off D, Act.on D, Act.off D, Act.on D, Act.off D,
       Act.off (2 * D),
       Act.on (3 * D), Act.off D, Act.on (3 * D), Act.off D,
       Act.on (3 * D), Act.off D,
       Act.off (2 * D),
       Act.on D, Act.off D, Act.on D, Act.off D, Act.on D, Act.off D] ∧
    onDurations (blink_pattern D (text_to_morse "SOS".toList)) =
      [D, D, D, 3 * D, 3 * D, 3 * D, D, D, D] ∧
    gapsBetweenOns (blink_pattern D (text_to_morse "SOS".toList)) =
      [D, D, 3 * D, D, D, 3 * D, D, D] := by
  have hpat : blink_pattern D (text_to_morse "SOS".toList) =
      [Act.on D, Act.off D, Act.on D, Act.off D, Act.on D, Act.off D,
       Act.off (2 * D),
       Act.on (3 * D), Act.off D, Act.on (3 * D), Act.off D,
       Act.on (3 * D), Act.off D,
       Act.off (2 * D),
       Act.on D, Act.off D, Act.on D, Act.off D, Act.on D, Act.off D] := by
    rw [text_to_morse_sos]
    simp only [String.toList]
    simp [blink_pattern, actsOfChar_dot, actsOfChar_dash, actsOfChar_space,
      dot_duration, dash_duration, element_gap, letter_gap, word_gap]
    omega
  refine ⟨hpat, ?_, ?_⟩
  · rw [hpat]
    simp [onDurations]
  · rw [hpat]
    simp [gapsBetweenOns, afterFirstOn, gapsAcc]
    omega

/-- Characterization of the `read_position` scan: the result, the new
`current_position` and the callback list expressed through
`lowestActive`. -/
lemma readScan_spec (bs : List Bool) : ∀ (i0 : ℕ) (cur : Option ℕ),
    readScan cur i0 bs =
      ((lowestActive bs).map (i0 + ·),
       (lowestActive bs).map (i0 + ·),
       match (lowestActive bs).map (i0 + ·) with
       | none => []
       | some k => if cur = some k then [] else [k]) := by
  induction bs with
  | nil => intro i0 cur; rfl
  | cons b t ih =>
      intro i0 cur
      cases b with
      | true =>
          by_cases hc : cur = some i0 <;>
            simp [readScan, lowestActive, hc]
      | false =>
          rw [show readScan cur i0 (false :: t) = readScan cur (i0 + 1) t
              from rfl,
            ih (i0 + 1) cur]
          cases h : lowestActive t with
          | none => simp [lowestActive, h]
          | some m =>
              have e : i0 + 1 + m = i0 + (m + 1) := by omega
              simp [lowestActive, h, e]

/-- `lowestActive` really is the least HIGH index, and `none` means no
input is HIGH. -/
lemma lowestActive_spec (bs : List Bool) :
    (∀ k, lowestActive bs = some k →
        bs[k]? = some true ∧ ∀ j, j < k → bs[j]? = some false) ∧
    (lowestActive bs = none → ∀ b ∈ bs, b = false) := by
  induction bs with
  | nil => simp [lowestActive]
  | cons b t ih =>
      cases b with
      | true =>
          refine ⟨?_, by simp [lowestActive]⟩
          intro k hk
          simp only [lowestActive, Option.some.injEq] at hk
          subst hk
          exact ⟨by simp, by omega⟩
      | false =>
          constructor
          · intro k hk
            rw [show lowestActive (false :: t) = (lowestActive t).map (· + 1)
                from rfl] at hk
            cases h : lowestActive t with
            | none => rw [h] at hk; simp at hk
            | some m =>
                rw [h] at hk
                simp at hk
                subst hk
                obtain ⟨h1, h2⟩ := ih.1 m h
                refine ⟨by simpa using h1, ?_⟩
                intro j hj
                cases j with
                | zero => simp
                | succ j' =>
                    simpa using h2 j' (by omega)
          · intro hk
            rw [show lowestActive (false :: t) = (lowestActive t).map (· + 1)
                from rfl] at hk
            have := ih.2 (by
              cases h : lowestActive t with
              | none => rfl
              | some m => rw [h] at hk; simp at hk)
            intro x hx
            rcases List.mem_cons.mp hx with h | h
            · exact h
            · exact this x h

/-- C9: for every state of the six inputs, `read_position` returns the
lowest index whose input reads HIGH (`none` when no input is HIGH); the
stored `current_position` is updated to the returned value; when the
returned position is active and differs from the previously reported
one, the registered callback is invoked — synchronously, before the
return — exactly once, with the new index; when the returned position
equals the previous one, or when no input is active, no callback is
fired. -/
theorem C9_read_position_spec (inputs : List Bool) (cur : Option ℕ)
    (h6 : inputs.length = 6) (res newCur : Option ℕ) (calls : List ℕ)
    (h : read_position inputs cur = (res, newCur, calls)) :
    (∀ i, res = some i →
        inputs[i]? = some true ∧ ∀ j, j < i → inputs[j]? = some false) ∧
    (res = none → ∀ b ∈ inputs, b = false) ∧
    newCur = res ∧
    (∀ i, res = some i → cur ≠ some i → calls = [i]) ∧
    (∀ i, res = some i → cur = some i → calls = []) ∧
    (res = none → calls = []) := by
  rw [read_position, readScan_spec inputs 0 cur] at h
  have hmap : (lowestActive inputs).map (0 + ·) = lowestActive inputs := by
    cases lowestActive inputs <;> simp
  rw [hmap] at h
  injection h with h1 h23
  injection h23 with h2 h3
  subst h1
  subst h2
  subst h3
  obtain ⟨hlow1, hlow2⟩ := lowestActive_spec inputs
  refine ⟨hlow1, hlow2, rfl, ?_, ?_, ?_⟩
  · intro i hi hne
    simp [hi, if_neg hne]
  · intro i hi heq
    simp [hi, if_pos heq]
  · intro hi
    simp [hi]

/-- Witness for C9 at a concrete input: inputs 0 and 2..5 LOW, input 1
HIGH, no previously reported position. -/
theorem C9_read_position_spec_witness :
    ([false, true, false, false, false, false] : List Bool).length = 6 ∧
    read_position [false, true, false, false, false, false] none
      = (some 1, some 1, [1]) ∧
    ((∀ i, (some 1 : Option ℕ) = some i →
        ([false, true, false, false, false, false] : List Bool)[i]?
            = some true ∧
          ∀ j, j < i →
            ([false, true, false, false, false, false] : List Bool)[j]?
              = some false) ∧
      ((some 1 : Option ℕ) = none →
        ∀ b ∈ ([false, true, false, false, false, false] : List Bool),
          b = false) ∧
      (some 1 : Option ℕ) = some 1 ∧
      (∀ i, (some 1 : Option ℕ) = some i → (none : Option ℕ) ≠ some i →
        [1] = [i]) ∧
      (∀ i, (some 1 : Option ℕ) = some i → (none : Option ℕ) = some i →
        [1] = []) ∧
      ((some 1 : Option ℕ) = none → [1] = [])) :=
  ⟨by decide, by decide,
    C9_read_position_spec [false, true, false, false, false, false] none
      (by decide) (some 1) (some 1) [1] (by decide)⟩

/-- The position recorded in `configFor` is the position itself. -/
lemma configFor_currentPosition (cfg : Config) (p : ℕ) :
    (configFor cfg p).currentPosition = some p := by
  unfold configFor
  split <;> rfl

/-- With five configured stations and all external calls succeeding,
processing a position `p ≤ 5` from any state that does not already
report `p` establishes exactly the output configuration `configFor`. -/
lemma switch_config (cfg : Config) (hlen : cfg.stations.length = 5)
    (p : ℕ) (hp : p ≤ 5) (s : CoordState)
    (hne : s.currentPosition ≠ some p) :
    (switch_to_position cfg true p s).1 = configFor cfg p := by
  cases s with
  | mk cp mo au po =>
      by_cases h5 : p < 5
      · simp [switch_to_position, hne, switch_to_station, configFor, h5,
          show ¬ cfg.stations.length ≤ p by omega]
      · have hp5 : p = 5 := by omega
        subst hp5
        simp [switch_to_position, hne, switch_to_bluetooth, configFor]

/-- C2: with five configured stations and no external failures, for
positions `P ≠ Q` (both in 0..5), processing `P`, then `Q`, then `P`
again yields the same active configuration (position, Morse message,
playing stream, pairing state) as processing `P` once; and processing a
position equal to the current one is a complete no-op — unchanged state
and no collaborator calls at all. -/
theorem C2_revisit_idempotent (cfg : Config) (hlen : cfg.stations.length = 5)
    (P Q : ℕ) (hP : P ≤ 5) (hQ : Q ≤ 5) (hPQ : P ≠ Q) (s : CoordState)
    (hs : s.currentPosition ≠ some P)
    (p' : ℕ) (s' : CoordState) (pl : Bool)
    (hs' : s'.currentPosition = some p') :
    (switch_to_position cfg true P
        ((switch_to_position cfg true Q
          ((switch_to_position cfg true P s).1)).1)).1
      = (switch_to_position cfg true P s).1 ∧
    switch_to_position cfg pl p' s' = (s', []) := by
  have h1 := switch_config cfg hlen P hP s hs
  have c1 : ((switch_to_position cfg true P s).1).currentPosition = some P := by
    rw [h1]; exact configFor_currentPosition cfg P
  have h2 := switch_config cfg hlen Q hQ _
    (by rw [c1]; simp [hPQ])
  have c2 : ((switch_to_position cfg true Q
      ((switch_to_position cfg true P s).1)).1).currentPosition = some Q := by
    rw [h2]; exact configFor_currentPosition cfg Q
  have h3 := switch_config cfg hlen P hP _
    (by rw [c2]; simp [Ne.symm hPQ])
  refine ⟨by rw [h3, h1], ?_⟩
  simp [switch_to_position, hs']

/-- A concrete five-station configuration for witnesses. -/
def sampleConfig : Config :=
  { stations :=
      [ ⟨"url1".toList, "S1".toList⟩, ⟨"url2".toList, "S2".toList⟩,
        ⟨"url3".toList, "S3".toList⟩, ⟨"url4".toList, "S4".toList⟩,
        ⟨"url5".toList, "S5".toList⟩ ],
    bluetoothMorse := "BT".toList }

/-- Witness for C2 at `P = 0`, `Q = 5`, starting from the freshly
constructed coordinator state (`current_position = None`). -/
theorem C2_revisit_idempotent_witness :
    sampleConfig.stations.length = 5 ∧ (0 : ℕ) ≤ 5 ∧ (5 : ℕ) ≤ 5 ∧
    (0 : ℕ) ≠ 5 ∧
    (CoordState.mk none none none false).currentPosition ≠ some 0 ∧
    (CoordState.mk (some 2) none none false).currentPosition = some 2 ∧
    ((switch_to_position sampleConfig true 0
        ((switch_to_position sampleConfig true 5
          ((switch_to_position sampleConfig true 0
            (CoordState.mk none none none false)).1)).1)).1
      = (switch_to_position sampleConfig true 0
          (CoordState.mk none none none false)).1 ∧
     switch_to_position sampleConfig true 2
        (CoordState.mk (some 2) none none false)
      = (CoordState.mk (some 2) none none false, [])) :=
  ⟨by decide, by decide, by decide, by decide, by decide, by decide,
    C2_revisit_idempotent sampleConfig (by decide) 0 5 (by decide) (by decide)
      (by decide) (CoordState.mk none none none false) (by decide)
      2 (CoordState.mk (some 2) none none false) true (by decide)⟩

/-- C3: for every station slot `P` in 0..4, when `play_stream` reports
failure during the switch to `P` (`playOk = false`), the Morse
identifier message of `P`'s binding is left as the Scheduler's active
message, and the collaborator-call trace of the transition is exactly
disable-pairing, start-Morse, play-stream, in that order: the blink was
started before playback was requested, playback is attempted exactly
once (no retry), and the Scheduler is never stopped.  The transition is
a total function of the state — the source's failure branch only logs
(`play_stream` itself catches every exception and reports failure by
returning `False`), so no exception propagates. -/
theorem C3_play_failure_keeps_morse (cfg : Config) (P : ℕ) (hP : P < 5)
    (hlen : cfg.stations.length = 5) (s : CoordState)
    (hs : s.currentPosition ≠ some P) :
    (switch_to_position cfg false P s).1.morse
        = some (cfg.stations.getD P ⟨[], []⟩).morseMessage ∧
    (switch_to_position cfg false P s).2
        = [CAct.disablePairing,
           CAct.startMorse (cfg.stations.getD P ⟨[], []⟩).morseMessage,
           CAct.playStream (cfg.stations.getD P ⟨[], []⟩).url] ∧
    CAct.stopMorse ∉ (switch_to_position cfg false P s).2 := by
  cases s with
  | mk cp mo au po =>
      refine ⟨?_, ?_, ?_⟩ <;>
        simp [switch_to_position, hs, switch_to_station, hP,
          show ¬ cfg.stations.length ≤ P by omega]

/-- Witness for C3 at station slot 2 (the spec's scenario), from the
fresh coordinator state. -/
theorem C3_play_failure_keeps_morse_witness :
    (2 : ℕ) < 5 ∧ sampleConfig.stations.length = 5 ∧
    (CoordState.mk none none none false).currentPosition ≠ some 2 ∧
    ((switch_to_position sampleConfig false 2
        (CoordState.mk none none none false)).1.morse
        = some (sampleConfig.stations.getD 2 ⟨[], []⟩).morseMessage ∧
     (switch_to_position sampleConfig false 2
        (CoordState.mk none none none false)).2
        = [CAct.disablePairing,
           CAct.startMorse (sampleConfig.stations.getD 2 ⟨[], []⟩).morseMessage,
           CAct.playStream (sampleConfig.stations.getD 2 ⟨[], []⟩).url] ∧
     CAct.stopMorse ∉ (switch_to_position sampleConfig false 2
        (CoordState.mk none none none false)).2) :=
  ⟨by decide, by decide, by decide,
    C3_play_failure_keeps_morse sampleConfig 2 (by decide) (by decide)
      (CoordState.mk none none none false) (by decide)⟩

/-! ## Words and the word gap (C7, C8) -/

/-- A lookup result that is a genuine dot/dash code: present, nonempty,
and made of `'.'` and `'-'` only.  (The space's "code" `" "` is not.) -/
def goodCode : Option (List Char) → Bool
  | none => false
  | some code => !code.isEmpty && code.all (fun c => c == '.' || c == '-')

/-- A mapped word: a nonempty run of characters each of which maps to a
dot/dash code (so, in particular, containing no space). -/
def IsWord (w : List Char) : Prop :=
  w ≠ [] ∧ ∀ c ∈ w, goodCode (MORSE_CODE.lookup c.toUpper) = true

instance (w : List Char) : Decidable (IsWord w) :=
  inferInstanceAs (Decidable (_ ∧ _))

/-- A character of a pattern that would reach the `else` ("word gap")
branch of `_blink_pattern`: anything other than `'.'`, `'-'` and
`' '`. -/
def isWordGapChar (c : Char) : Bool :=
  !(c == '.' || c == '-' || c == ' ')

lemma morseItems_append (xs ys : List Char) :
    morseItems (xs ++ ys) = morseItems xs ++ morseItems ys := by
  simp [morseItems]

lemma lookup_space : MORSE_CODE.lookup ' '.toUpper = some [' '] := by
  decide

lemma morseItems_space_cons (w : List Char) :
    morseItems (' ' :: w) = [' '] :: morseItems w := rfl

/-- The `" ".join` over a nonempty first block. -/
lemma joinSp_append (A B : List (List Char)) (hA : A ≠ []) (hB : B ≠ []) :
    joinSp (A ++ B) = joinSp A ++ ' ' :: joinSp B := by
  induction A with
  | nil => exact absurd rfl hA
  | cons a A' ih =>
      cases A' with
      | nil =>
          cases B with
          | nil => exact absurd rfl hB
          | cons b B' => simp [joinSp]
      | cons a2 A'' =>
          have : joinSp ((a :: a2 :: A'') ++ B)
              = a ++ ' ' :: joinSp ((a2 :: A'') ++ B) := rfl
          rw [this, ih (by simp)]
          simp [joinSp]

/-- Every item produced for a word is a nonempty dot/dash code. -/
lemma morseItems_of_word (w : List Char) (hw : IsWord w) :
    ∀ p ∈ morseItems w, p ≠ [] ∧ ∀ c ∈ p, c = '.' ∨ c = '-' := by
  intro p hp
  rw [morseItems, List.mem_filterMap] at hp
  obtain ⟨a, ha, hfa⟩ := hp
  rw [List.mem_map] at ha
  obtain ⟨c, hc, rfl⟩ := ha
  have hg := hw.2 c hc
  rw [hfa] at hg
  simp only [goodCode, Bool.and_eq_true, Bool.not_eq_true'] at hg
  refine ⟨by simpa using hg.1, ?_⟩
  intro d hd
  have := (List.all_eq_true.mp hg.2) d hd
  simpa using this

lemma morseItems_ne_nil (w : List Char) (hw : IsWord w) :
    morseItems w ≠ [] := by
  obtain ⟨c, t, rfl⟩ := List.exists_cons_of_ne_nil hw.1
  have hg := hw.2 c (List.mem_cons_self c t)
  cases hl : MORSE_CODE.lookup c.toUpper with
  | none => rw [hl] at hg; simp [goodCode] at hg
  | some code =>
      simp [morseItems, List.filterMap_cons, hl]

/-- The first character of a word's pattern is a dot or a dash. -/
lemma tm_head (w : List Char) (hw : IsWord w) :
    ∃ c rest, text_to_morse w = c :: rest ∧ (c = '.' ∨ c = '-') := by
  obtain ⟨p, t, hpt⟩ := List.exists_cons_of_ne_nil (morseItems_ne_nil w hw)
  have hp := morseItems_of_word w hw p (by rw [hpt]; exact List.mem_cons_self p t)
  obtain ⟨c, p', rfl⟩ := List.exists_cons_of_ne_nil hp.1
  have hc := hp.2 c (List.mem_cons_self c p')
  rw [text_to_morse, hpt]
  cases t with
  | nil => exact ⟨c, p', rfl, hc⟩
  | cons q t' => exact ⟨c, p' ++ ' ' :: joinSp (q :: t'), rfl, hc⟩

/-- The last character of a word's pattern is a dot or a dash. -/
lemma tm_last (w : List Char) (hw : IsWord w) :
    ∃ A c, text_to_morse w = A ++ [c] ∧ (c = '.' ∨ c = '-') := by
  rcases (morseItems w).eq_nil_or_concat' with hnil | ⟨B, p, hBp⟩
  · exact absurd hnil (morseItems_ne_nil w hw)
  · have hp := morseItems_of_word w hw p (by rw [hBp]; simp)
    rcases p.eq_nil_or_concat' with rfl | ⟨p', c, rfl⟩
    · exact absurd rfl hp.1
    · have hc := hp.2 c (by simp)
      rw [text_to_morse, hBp]
      cases B with
      | nil => exact ⟨p', c, by simp [joinSp], hc⟩
      | cons b B' =>
          refine ⟨joinSp (b :: B') ++ ' ' :: p', c, ?_, hc⟩
          have hj := joinSp_append (b :: B') [p' ++ [c]] (by simp) (by simp)
          simp only [List.cons_append] at hj ⊢
          rw [hj]
          simp [joinSp]

/-- Core of the word-gap behaviour: a single space between two mapped
words produces exactly three consecutive space characters in the joined
pattern — the space's own `" "` code plus the two `" ".join`
separators around it. -/
lemma tm_word_space_word (w1 w2 : List Char) (h1 : IsWord w1)
    (h2 : IsWord w2) :
    text_to_morse (w1 ++ ' ' :: w2)
      = text_to_morse w1 ++ ' ' :: ' ' :: ' ' :: text_to_morse w2 := by
  have hitems : morseItems (w1 ++ ' ' :: w2)
      = morseItems w1 ++ [' '] :: morseItems w2 := by
    rw [morseItems_append, morseItems_space_cons]
  rw [text_to_morse, hitems,
    joinSp_append (morseItems w1) ([' '] :: morseItems w2)
      (morseItems_ne_nil w1 h1) (by simp)]
  obtain ⟨q, t, hqt⟩ := List.exists_cons_of_ne_nil (morseItems_ne_nil w2 h2)
  simp [text_to_morse, hqt, joinSp]

/-- Every character of a join is a character of one of the items or a
separator space. -/
lemma mem_joinSp (L : List (List Char)) (c : Char) (hc : c ∈ joinSp L) :
    (∃ p ∈ L, c ∈ p) ∨ c = ' ' := by
  induction L with
  | nil => simp [joinSp] at hc
  | cons x t ih =>
      cases t with
      | nil =>
          simp only [joinSp] at hc
          exact Or.inl ⟨x, by simp, hc⟩
      | cons y t' =>
          simp only [joinSp, List.mem_append, List.mem_cons] at hc
          rcases hc with hx | hsp | hrest
          · exact Or.inl ⟨x, by simp, hx⟩
          · exact Or.inr hsp
          · rcases ih hrest with ⟨p, hp, hcp⟩ | hsp
            · exact Or.inl ⟨p, by simp [hp], hcp⟩
            · exact Or.inr hsp

/-- Every character of a word's pattern is a dot, a dash or a space. -/
lemma tm_word_chars (w : List Char) (hw : IsWord w) :
    ∀ c ∈ text_to_morse w, c = '.' ∨ c = '-' ∨ c = ' ' := by
  intro c hc
  rcases mem_joinSp (morseItems w) c hc with ⟨p, hp, hcp⟩ | hsp
  · rcases (morseItems_of_word w hw p hp).2 c hcp with h | h
    · exact Or.inl h
    · exact Or.inr (Or.inl h)
  · exact Or.inr (Or.inr hsp)

/-- C7 counterexample: the claim says a space in the message makes the
encoder insert a single word-gap symbol in place of the letter-gap
symbol at that position.  On the code, encoding `"A B"` yields
`".-   -..."`: the position of the space holds three consecutive `' '`
characters — the very letter-gap symbol, tripled (the space's own `" "`
code plus the two `" ".join` separators) — and the produced pattern
contains no character at all that would reach the word-gap (`else`)
branch of `_blink_pattern`. -/
theorem C7_counterexample :
    text_to_morse "A B".toList = ".-   -...".toList ∧
    (text_to_morse "A B".toList).all (fun c => !isWordGapChar c) = true := by
  decide

/-- C7 (amended): for every pair of mapped words separated by a single
space, the encoder emits, at the position of the space, three
consecutive space (letter-gap) symbols — the space's own mapping plus
the two join separators — instead of the single space that separates
letters; no distinct word-gap symbol occurs anywhere in the produced
pattern (the tripled space is what realises the word-gap timing, see
C8). -/
theorem C7_space_becomes_three_letter_gaps (w1 w2 : List Char)
    (h1 : IsWord w1) (h2 : IsWord w2) :
    text_to_morse (w1 ++ ' ' :: w2)
      = text_to_morse w1 ++ ' ' :: ' ' :: ' ' :: text_to_morse w2 ∧
    ∀ c ∈ text_to_morse (w1 ++ ' ' :: w2), isWordGapChar c = false := by
  have key := tm_word_space_word w1 w2 h1 h2
  refine ⟨key, ?_⟩
  intro c hc
  rw [key] at hc
  have hch : c = '.' ∨ c = '-' ∨ c = ' ' := by
    simp only [List.mem_append, List.mem_cons] at hc
    rcases hc with h | h | h | h | h
    · exact tm_word_chars w1 h1 c h
    · exact Or.inr (Or.inr h)
    · exact Or.inr (Or.inr h)
    · exact Or.inr (Or.inr h)
    · exact tm_word_chars w2 h2 c h
  rcases hch with rfl | rfl | rfl <;> decide

/-- Witness for C7's amended statement at `"A"`, `"B"`. -/
theorem C7_space_becomes_three_letter_gaps_witness :
    IsWord "A".toList ∧ IsWord "B".toList ∧
    (text_to_morse ("A".toList ++ ' ' :: "B".toList)
        = text_to_morse "A".toList ++
            ' ' :: ' ' :: ' ' :: text_to_morse "B".toList ∧
      ∀ c ∈ text_to_morse ("A".toList ++ ' ' :: "B".toList),
        isWordGapChar c = false) :=
  ⟨by decide, by decide,
    C7_space_becomes_three_letter_gaps "A".toList "B".toList
      (by decide) (by decide)⟩

/-! ## Gap accumulation lemmas for the word gap (C8) -/

/-- A trace containing at least one lamp-on action. -/
def HasOn (l : List Act) : Prop := ∃ d, Act.on d ∈ l

lemma afterFirstOn_append (xs ys : List Act) (h : HasOn xs) :
    afterFirstOn (xs ++ ys) = afterFirstOn xs ++ ys := by
  induction xs with
  | nil => obtain ⟨d, hd⟩ := h; simp at hd
  | cons a t ih =>
      cases a
      -- Act.check
      · have : HasOn t := by
          obtain ⟨d, hd⟩ := h
          rcases List.mem_cons.mp hd with h' | h'
          · exact absurd h' (by simp)
          · exact ⟨d, h'⟩
        simpa [afterFirstOn] using ih this
      -- Act.on
      · rfl
      -- Act.off
      · have : HasOn t := by
          obtain ⟨d', hd⟩ := h
          rcases List.mem_cons.mp hd with h' | h'
          · exact absurd h' (by simp)
          · exact ⟨d', h'⟩
        simpa [afterFirstOn] using ih this

/-- `gapsAcc` is compositional across an append: the second segment is
processed starting from the accumulator the first segment ends with. -/
lemma gapsAcc_append (xs : List Act) : ∀ (acc : ℕ) (ys : List Act),
    gapsAcc acc (xs ++ ys)
      = ((gapsAcc acc xs).1 ++ (gapsAcc (gapsAcc acc xs).2 ys).1,
         (gapsAcc (gapsAcc acc xs).2 ys).2) := by
  induction xs with
  | nil => intro acc ys; simp [gapsAcc]
  | cons a t ih =>
      intro acc ys
      cases a
      -- Act.check
      · simpa [gapsAcc] using ih acc ys
      -- Act.on
      · simp [gapsAcc, ih 0 ys]
      -- Act.off
      · simpa [gapsAcc] using ih (acc + _) ys

/-- A trace ending in a lamp-on action followed by a single off action
leaves exactly that off duration in the accumulator. -/
lemma gapsAcc_trailing (l : List Act) : ∀ (acc : ℕ) (d e : ℕ),
    (gapsAcc acc (l ++ [Act.on d, Act.off e])).2 = e := by
  induction l with
  | nil => intro acc d e; simp [gapsAcc]
  | cons a t ih =>
      intro acc d e
      cases a
      -- Act.check
      · simpa [gapsAcc] using ih acc d e
      -- Act.on
      · simpa [gapsAcc] using ih 0 d e
      -- Act.off
      · simpa [gapsAcc] using ih (acc + _) d e

/-- Same, after dropping everything up to the first lamp-on action. -/
lemma gapsAcc_afterFirstOn_trailing (A : List Act) (d e : ℕ) :
    (gapsAcc 0 (afterFirstOn (A ++ [Act.on d, Act.off e]))).2 = e := by
  induction A with
  | nil => simp [afterFirstOn, gapsAcc]
  | cons a t ih =>
      cases a
      -- Act.check
      · simpa [afterFirstOn] using ih
      -- Act.on
      · show (gapsAcc 0 (t ++ [Act.on d, Act.off e])).2 = e
        exact gapsAcc_trailing t 0 d e
      -- Act.off
      · simpa [afterFirstOn] using ih

lemma blink_pattern_append (D : ℕ) (xs ys : List Char) :
    blink_pattern D (xs ++ ys)
      = blink_pattern D xs ++ blink_pattern D ys := by
  induction xs with
  | nil => simp [blink_pattern]
  | cons c t ih => simp [blink_pattern, ih]

/-- C8: for every two mapped words separated by exactly one space and
every dot duration `D`, the total lamp-off time between the last
element of the first word and the first element of the second word is
`7 * D` — the trailing 1D element gap of the last element plus the
three space symbols of 2D each — i.e. the gap list of the whole
pattern is the first word's gaps, then a single `7 * D` entry, then the
second word's gaps. -/
theorem C8_word_gap_total_off_7D (D : ℕ) (w1 w2 : List Char)
    (h1 : IsWord w1) (h2 : IsWord w2) :
    gapsBetweenOns (blink_pattern D (text_to_morse (w1 ++ ' ' :: w2)))
      = gapsBetweenOns (blink_pattern D (text_to_morse w1))
          ++ 7 * D :: gapsBetweenOns (blink_pattern D (text_to_morse w2)) := by
  obtain ⟨A1, c1, he1, hc1⟩ := tm_last w1 h1
  obtain ⟨c2, r2, he2, hc2⟩ := tm_head w2 h2
  obtain ⟨d1, hs1⟩ : ∃ d1, blink_pattern D (text_to_morse w1)
      = blink_pattern D A1 ++ [Act.on d1, Act.off (element_gap D)] := by
    rcases hc1 with rfl | rfl
    · exact ⟨dot_duration D, by rw [he1, blink_pattern_append]; rfl⟩
    · exact ⟨dash_duration D, by rw [he1, blink_pattern_append]; rfl⟩
  obtain ⟨d2, hs2⟩ : ∃ d2, blink_pattern D (text_to_morse w2)
      = Act.on d2 :: Act.off (element_gap D) :: blink_pattern D r2 := by
    rcases hc2 with rfl | rfl
    · exact ⟨dot_duration D, by rw [he2]; rfl⟩
    · exact ⟨dash_duration D, by rw [he2]; rfl⟩
  have key := tm_word_space_word w1 w2 h1 h2
  have hwhole : blink_pattern D (text_to_morse (w1 ++ ' ' :: w2))
      = blink_pattern D (text_to_morse w1)
        ++ (Act.off (letter_gap D - element_gap D)
            :: Act.off (letter_gap D - element_gap D)
            :: Act.off (letter_gap D - element_gap D)
            :: blink_pattern D (text_to_morse w2)) := by
    rw [key, blink_pattern_append]
    rfl
  have hOn : HasOn (blink_pattern D (text_to_morse w1)) := by
    rw [hs1]; exact ⟨d1, by simp⟩
  have hf1 : (gapsAcc 0
      (afterFirstOn (blink_pattern D (text_to_morse w1)))).2
        = element_gap D := by
    rw [hs1]; exact gapsAcc_afterFirstOn_trailing _ d1 (element_gap D)
  have harith : element_gap D + (letter_gap D - element_gap D)
      + (letter_gap D - element_gap D) + (letter_gap D - element_gap D)
        = 7 * D := by
    simp only [element_gap, letter_gap, dot_duration]
    omega
  simp only [gapsBetweenOns, hwhole,
    afterFirstOn_append _ _ hOn, gapsAcc_append, hf1, hs2]
  simp [gapsAcc, afterFirstOn, harith]

/-- Witness for C8 at `D = 2`, words `"A"` and `"B"`. -/
theorem C8_word_gap_total_off_7D_witness :
    IsWord "A".toList ∧ IsWord "B".toList ∧
    gapsBetweenOns (blink_pattern 2
        (text_to_morse ("A".toList ++ ' ' :: "B".toList)))
      = gapsBetweenOns (blink_pattern 2 (text_to_morse "A".toList))
          ++ 7 * 2 ::
            gapsBetweenOns (blink_pattern 2 (text_to_morse "B".toList)) :=
  ⟨by decide, by decide,
    C8_word_gap_total_off_7D 2 "A".toList "B".toList (by decide) (by decide)⟩

end BostyRadio
